import Mathlib

set_option maxRecDepth 8000

namespace AgentKit

/-! Shallow embedding of the agent-starter-kit orchestration core:
the response parser (`src/utils.py`), the job/candidate stores
(`src/jobs.py`, `src/candidates.py`), the two orchestration loops
(`src/agent.py`), and the tool-calling protocol client
(`src/mcp_client.py`).  Record fields not read or written by the
embedded code (titles, phone numbers, timestamps, ...) are omitted;
external calls (language model, tool registry, transports) are passed
in as oracle functions. -/

/-- JSON values as produced by the `json.loads` model.  Numeric
literals are kept as their source lexeme, since no embedded code
inspects numeric values. -/
inductive JVal where
  | jnull : JVal
  | jbool : Bool → JVal
  | jnum : String → JVal
  | jstr : String → JVal
  | jarr : List JVal → JVal
  | jobj : List (String × JVal) → JVal
deriving Repr

/-- JSON whitespace accepted between tokens by `json.loads`. -/
def jws (c : Char) : Bool :=
  c == ' ' || c == '\t' || c == '\n' || c == '\r'

/-- Hexadecimal digit value, for string escapes. -/
def hexVal (c : Char) : Option Nat :=
  if '0' ≤ c && c ≤ '9' then some (c.toNat - 48)
  else if 'a' ≤ c && c ≤ 'f' then some (c.toNat - 87)
  else if 'A' ≤ c && c ≤ 'F' then some (c.toNat - 55)
  else none

/-- Model of JSON string-body parsing (after the opening quote):
returns the decoded characters and the input remaining after the
closing quote.  Unescaped control characters are rejected, as by
`json.loads` in strict mode. -/
def parseStrChars : Nat → List Char → Option (List Char × List Char)
  | 0, _ => none
  | f + 1, cs =>
    match cs with
    | [] => none
    | c :: rest =>
      if c == '"' then some ([], rest)
      else if c == '\\' then
        match rest with
        | [] => none
        | e :: rest2 =>
          if e == '"' then (parseStrChars f rest2).map (fun p => ('"' :: p.1, p.2))
          else if e == '\\' then (parseStrChars f rest2).map (fun p => ('\\' :: p.1, p.2))
          else if e == '/' then (parseStrChars f rest2).map (fun p => ('/' :: p.1, p.2))
          else if e == 'b' then (parseStrChars f rest2).map (fun p => ('\x08' :: p.1, p.2))
          else if e == 'f' then (parseStrChars f rest2).map (fun p => ('\x0c' :: p.1, p.2))
          else if e == 'n' then (parseStrChars f rest2).map (fun p => ('\n' :: p.1, p.2))
          else if e == 'r' then (parseStrChars f rest2).map (fun p => ('\r' :: p.1, p.2))
          else if e == 't' then (parseStrChars f rest2).map (fun p => ('\t' :: p.1, p.2))
          else if e == 'u' then
            match rest2 with
            | h1 :: h2 :: h3 :: h4 :: rest3 =>
              match hexVal h1, hexVal h2, hexVal h3, hexVal h4 with
              | some a, some b, some c2, some d2 =>
                (parseStrChars f rest3).map
                  (fun p => (Char.ofNat (((a * 16 + b) * 16 + c2) * 16 + d2) :: p.1, p.2))
              | _, _, _, _ => none
            | _ => none
          else none
      else if c.toNat < 32 then none
      else (parseStrChars f rest).map (fun p => (c :: p.1, p.2))

/-- Model of the JSON number grammar used by `json.loads`
(`-?(0|[1-9][0-9]*)(\.[0-9]+)?([eE][+-]?[0-9]+)?`): returns the
lexeme and the remaining input. -/
def parseNumLex (cs : List Char) : Option (List Char × List Char) :=
  let (neg, cs1) :=
    match cs with
    | c :: r => if c == '-' then ([c], r) else (([] : List Char), cs)
    | [] => (([] : List Char), cs)
  match cs1 with
  | [] => none
  | c :: r =>
    if c == '0' || c.isDigit then
      let (intPart, r2) :=
        if c == '0' then ([c], r)
        else (c :: r.takeWhile Char.isDigit, r.dropWhile Char.isDigit)
      let (fracPart, r3) :=
        match r2 with
        | '.' :: rf =>
          match rf.takeWhile Char.isDigit with
          | [] => (([] : List Char), r2)
          | ds => ('.' :: ds, rf.dropWhile Char.isDigit)
        | _ => (([] : List Char), r2)
      let (expPart, r4) :=
        match r3 with
        | e :: re =>
          if e == 'e' || e == 'E' then
            let (sign, rs) :=
              match re with
              | s :: rr => if s == '+' || s == '-' then ([s], rr) else (([] : List Char), re)
              | [] => (([] : List Char), re)
            match rs.takeWhile Char.isDigit with
            | [] => (([] : List Char), r3)
            | ds => (e :: (sign ++ ds), rs.dropWhile Char.isDigit)
          else (([] : List Char), r3)
        | [] => (([] : List Char), r3)
      some (neg ++ intPart ++ fracPart ++ expPart, r4)
    else none

mutual

/-- Model of the recursive-descent value parser of `json.loads`. -/
def parseJ : Nat → List Char → Option (JVal × List Char)
  | 0, _ => none
  | f + 1, cs =>
    let cs := cs.dropWhile jws
    match cs with
    | [] => none
    | c :: rest =>
      if c == '\x7b' then
        match rest.dropWhile jws with
        | '\x7d' :: r => some (.jobj [], r)
        | body => parseMembers f body []
      else if c == '[' then
        match rest.dropWhile jws with
        | ']' :: r => some (.jarr [], r)
        | body => parseElems f body []
      else if c == '"' then
        (parseStrChars (f + 1) rest).map (fun p => (.jstr (String.mk p.1), p.2))
      else if c == 't' then
        if ['r', 'u', 'e'].isPrefixOf rest then some (.jbool true, rest.drop 3) else none
      else if c == 'f' then
        if ['a', 'l', 's', 'e'].isPrefixOf rest then some (.jbool false, rest.drop 4) else none
      else if c == 'n' then
        if ['u', 'l', 'l'].isPrefixOf rest then some (.jnull, rest.drop 3) else none
      else if c == 'N' then
        if ['a', 'N'].isPrefixOf rest then some (.jnum "NaN", rest.drop 2) else none
      else if c == 'I' then
        if ['n', 'f', 'i', 'n', 'i', 't', 'y'].isPrefixOf rest then
          some (.jnum "Infinity", rest.drop 7)
        else none
      else if c == '-' && ['I', 'n', 'f', 'i', 'n', 'i', 't', 'y'].isPrefixOf rest then
        some (.jnum "-Infinity", rest.drop 8)
      else if c == '-' || c.isDigit then
        (parseNumLex (c :: rest)).map (fun p => (.jnum (String.mk p.1), p.2))
      else none

/-- Object members: key, colon, value, then comma or closing brace. -/
def parseMembers : Nat → List Char → List (String × JVal) → Option (JVal × List Char)
  | 0, _, _ => none
  | f + 1, cs, acc =>
    match cs.dropWhile jws with
    | '"' :: rest =>
      match parseStrChars (f + 1) rest with
      | none => none
      | some (key, afterKey) =>
        match afterKey.dropWhile jws with
        | ':' :: afterColon =>
          match parseJ f afterColon with
          | none => none
          | some (v, afterVal) =>
            let acc := acc ++ [(String.mk key, v)]
            match afterVal.dropWhile jws with
            | ',' :: r => parseMembers f r acc
            | '\x7d' :: r => some (.jobj acc, r)
            | _ => none
        | _ => none
    | _ => none

/-- Array elements: value then comma or closing bracket. -/
def parseElems : Nat → List Char → List JVal → Option (JVal × List Char)
  | 0, _, _ => none
  | f + 1, cs, acc =>
    match parseJ f cs with
    | none => none
    | some (v, afterVal) =>
      let acc := acc ++ [v]
      match afterVal.dropWhile jws with
      | ',' :: r => parseElems f r acc
      | ']' :: r => some (.jarr acc, r)
      | _ => none

end

/-- Model of `json.loads`: parse one value, then require only
whitespace to remain ("Extra data" otherwise).  `none` models a
raised `JSONDecodeError`. -/
def jsonLoads (s : String) : Option JVal :=
  match parseJ (2 * s.data.length + 8) s.data with
  | some (v, rest) => if (rest.dropWhile jws).isEmpty then some v else none
  | none => none

/-- Python whitespace characters recognized by `str.strip` (ASCII). -/
def isPyWs (c : Char) : Bool :=
  c == ' ' || c == '\t' || c == '\n' || c == '\r' || c == '\x0c' || c == '\x0b'

/-- Model of Python `str.strip()`. -/
def pyStrip (s : String) : String :=
  String.mk (((s.data.dropWhile isPyWs).reverse.dropWhile isPyWs).reverse)

/-- Opening literal of the tool-call announcement pattern
`\[Calling tool .+ with args \{\}\]` from `parse_json_from_response`. -/
def mOpen : List Char := "[Calling tool ".data

/-- Closing literal of the tool-call announcement pattern: note the
regex only accepts an args rendering of exactly `\x7b\x7d`. -/
def mClose : List Char := " with args \x7b\x7d]".data

/-- Search for `mClose` after a (possibly empty) run of non-newline
characters, preferring the latest occurrence on the line, as the
greedy `.+` of the announcement regex does.  Returns the input
remaining after `mClose`. -/
def searchClose : List Char → Option (List Char)
  | [] => none
  | c :: rest =>
    match (if c == '\n' then none else searchClose rest) with
    | some v => some v
    | none =>
      if mClose.isPrefixOf (c :: rest) then some ((c :: rest).drop mClose.length)
      else none

/-- Match the `.+ with args \x7b\x7d]` part of the announcement regex:
at least one non-newline character, then `mClose`. -/
def afterMarkerAt : List Char → Option (List Char)
  | [] => none
  | c :: rest => if c == '\n' then none else searchClose rest

/-- Leftmost match of the whole announcement pattern; returns the
content after the matched marker (regex group 1). -/
def findMarker : List Char → Option (List Char)
  | [] => none
  | c :: rest =>
    if mOpen.isPrefixOf (c :: rest) then
      match afterMarkerAt ((c :: rest).drop mOpen.length) with
      | some v => some v
      | none => findMarker rest
    else findMarker rest

/-- Step (a) of `parse_json_from_response`: if the announcement regex
matches, keep only the stripped trailing content. -/
def stripToolCall (s : String) : String :=
  match findMarker s.data with
  | some v => pyStrip (String.mk v)
  | none => s

/-- Code-fence delimiter. -/
def fenceTicks : List Char := "```".data

/-- Optional `json` tag directly after the opening fence. -/
def jsonTag : List Char := "json\n".data

/-- First occurrence of `pat`, returning the remaining input before
and after it. -/
def findFirst (pat : List Char) : List Char → Option (List Char × List Char)
  | [] => if pat.isEmpty then some ([], []) else none
  | c :: rest =>
    if pat.isPrefixOf (c :: rest) then some ([], (c :: rest).drop pat.length)
    else
      match findFirst pat rest with
      | some (b, a) => some (c :: b, a)
      | none => none

/-- Inner content of a fence opened just before `afterOpen`: skip an
optional `json` tag, then capture lazily up to the next fence. -/
def fenceInner (afterOpen : List Char) : Option (List Char) :=
  let body := if jsonTag.isPrefixOf afterOpen then afterOpen.drop jsonTag.length else afterOpen
  match findFirst fenceTicks body with
  | some (inner, _) => some inner
  | none => none

/-- Leftmost match of the fence regex
`` ```(?:json\n)?([\s\S]*?)``` ``. -/
def fenceSearch : List Char → Option (List Char)
  | [] => none
  | c :: rest =>
    if fenceTicks.isPrefixOf (c :: rest) then
      match fenceInner ((c :: rest).drop fenceTicks.length) with
      | some inner => some inner
      | none => fenceSearch rest
    else fenceSearch rest

/-- Step (b) of `parse_json_from_response`: inner content of the first
complete code fence if any, else the whole text, stripped. -/
def extractFence (s : String) : String :=
  match fenceSearch s.data with
  | some inner => pyStrip (String.mk inner)
  | none => pyStrip s

/-- Character class of the bullet-stripping regex `^[\s\-*]+`
(MULTILINE). -/
def bulletClass (c : Char) : Bool :=
  isPyWs c || c == '-' || c == '*'

/-- Step (c) of `parse_json_from_response`: at each line start remove
the maximal run of whitespace / dash / asterisk characters (the run
may swallow following newlines, exactly as the MULTILINE regex
substitution does). -/
def stripBullets : List Char → Bool → List Char
  | [], _ => []
  | c :: rest, atStart =>
    if atStart then
      if bulletClass c then stripBullets rest true
      else c :: stripBullets rest false
    else c :: stripBullets rest (c == '\n')

/-- Steps (b)-(d) of `parse_json_from_response`, after the tool-call
marker handling. -/
def parseCleaned (s : String) : Option JVal :=
  jsonLoads (String.mk (stripBullets (extractFence s).data true))

/-- Model of `parse_json_from_response` (src/utils.py): marker strip,
fence extraction, bullet strip, then `json.loads`; `none` models a
propagated parse exception. -/
def parse_json_from_response (s : String) : Option JVal :=
  parseCleaned (stripToolCall s)

/-- Inbound email record, reduced to the fields the loops read:
`email_id`, `candidate_id`, and the nullable reply text
(`response.text`; the empty string is falsy, as in Python). -/
structure Email where
  email_id : String
  candidate_id : String
  response : Option String
deriving DecidableEq, Repr

/-- Outbound message payload built by `create_email_agent`; `empty`
models the bare `\x7b\x7d` dict used when drafting fails. -/
inductive Payload where
  | empty : Payload
  | full (toAddr : Option String) (frm : String) (subject : String) (message : String) : Payload
deriving DecidableEq, Repr

/-- A record appended to a candidate's message history: either an
outbound payload (matching loop) or a raw inbound email (reply
loop). -/
inductive StoredMsg where
  | outbound : Payload → StoredMsg
  | inbound : Email → StoredMsg
deriving DecidableEq, Repr

/-- Candidate record, reduced to the fields the loops touch. -/
structure Candidate where
  candidate_id : String
  name : String
  email : Option String
  status : String
  job_id : Option String
  messages : List StoredMsg
deriving DecidableEq, Repr

/-- Job record, reduced to the fields `update_job_availability`
touches. -/
structure Job where
  job_id : String
  status : String
  candidate_ids : List String
deriving DecidableEq, Repr

/-- A proposed match as the matching loop reads it: only `name` is
looked up, and `sent_email` is written back once drafted. -/
structure MatchRec where
  name : Option String
  sent_email : Option Payload
deriving DecidableEq, Repr

/-- Reply-log entry appended by the reply-classification loop. -/
structure Reply where
  candidate : Candidate
  email : Email
  classification : String
  jobId : Option String
deriving DecidableEq, Repr

/-- The orchestration state: the persisted collections (`jobStore`,
`candidateStore`, standing in for jobs.json / people.json) plus the
in-memory mirror dict `state` of src/agent.py. -/
structure AgentState where
  jobStore : List Job
  candidateStore : List Candidate
  jobs : List Job
  candidates : List Candidate
  currentJob : Option Job
  currentMatches : List MatchRec
  matchLog : List MatchRec
  replies : List Reply
deriving DecidableEq, Repr

/-- Mutation applied by `JobStore.update_job_availability` to the
matched job: filled sets status and appends a truthy, not yet present
candidate id; unfilled sets status and clears the id list. -/
def applyJobUpdate (j : Job) (filled : Bool) (candidate_id : Option String) : Job :=
  if filled then
    { j with
      status := "filled"
      candidate_ids :=
        match candidate_id with
        | some cid =>
          if cid != "" && !(j.candidate_ids.contains cid) then j.candidate_ids ++ [cid]
          else j.candidate_ids
        | none => j.candidate_ids }
  else
    { j with status := "unfilled", candidate_ids := [] }

/-- Model of `JobStore.update_job_availability` (src/jobs.py): mutate
the first job whose `job_id` matches; report whether one was found. -/
def update_job_availability : List Job → String → Bool → Option String → List Job × Bool
  | [], _, _, _ => ([], false)
  | j :: rest, job_id, filled, cid =>
    if j.job_id == job_id then (applyJobUpdate j filled cid :: rest, true)
    else
      let r := update_job_availability rest job_id filled cid
      (j :: r.1, r.2)

/-- Model of `CandidateStore.add_message` (src/candidates.py). -/
def add_message : List Candidate → String → StoredMsg → List Candidate
  | [], _, _ => []
  | c :: rest, cid, msg =>
    if c.candidate_id == cid then { c with messages := c.messages ++ [msg] } :: rest
    else c :: add_message rest cid msg

/-- Model of `CandidateStore.update_candidate_status`
(src/candidates.py). -/
def update_candidate_status : List Candidate → String → String → Option String → List Candidate
  | [], _, _, _ => []
  | c :: rest, cid, status, job_id =>
    if c.candidate_id == cid then { c with status := status, job_id := job_id } :: rest
    else c :: update_candidate_status rest cid status job_id

mutual

/-- Python `repr` of a decoded JSON value, used when such a value is
interpolated into an f-string. -/
def pyRepr : JVal → String
  | .jnull => "None"
  | .jbool true => "True"
  | .jbool false => "False"
  | .jnum l => l
  | .jstr s => "\x27" ++ s ++ "\x27"
  | .jarr xs => "[" ++ String.intercalate ", " (pyReprList xs) ++ "]"
  | .jobj fs => "\x7b" ++ String.intercalate ", " (pyReprFields fs) ++ "\x7d"

/-- Helper for `pyRepr` on array elements. -/
def pyReprList : List JVal → List String
  | [] => []
  | v :: vs => pyRepr v :: pyReprList vs

/-- Helper for `pyRepr` on object fields. -/
def pyReprFields : List (String × JVal) → List String
  | [] => []
  | (k, v) :: fs => ("\x27" ++ k ++ "\x27: " ++ pyRepr v) :: pyReprFields fs

end

/-- Python `str` of a decoded JSON value: a string renders as itself,
anything else as its `repr`. -/
def pyStr : JVal → String
  | .jstr s => s
  | v => pyRepr v

/-- Model of `create_email_agent` (src/agent.py): the oracle
`draftResp` is the raw model completion (`none` when the completion
call raises).  Any failure inside the try block, including the
routine parse failure on plain-text replies, yields the empty
payload. -/
def create_email_agent (draftResp : Option String) (c : Candidate) : Payload :=
  match draftResp with
  | none => .empty
  | some raw =>
    match parse_json_from_response raw with
    | none => .empty
    | some v => .full c.email "recruiter@company.com" "Job Opportunity" (pyStr v)

/-- Externally visible side effects of the matching loop, in program
order: persisted message append, persisted status update, outbound
dispatch. -/
inductive Event where
  | addMessage (candidate_id : String) (msg : StoredMsg) : Event
  | updateStatus (candidate_id : String) (status : String) (job_id : Option String) : Event
  | sendEmail (candidate_id : String) (payload : Payload) : Event
deriving DecidableEq, Repr

/-- One iteration of the per-match loop body of `check_jobs`
(src/agent.py lines 162-186).  An unresolved name is skipped; with a
null job the body runs up to the `job["job_id"]` access, whose
exception the per-match handler catches after the message was
already persisted and the match recorded. -/
def processMatch (draft : Candidate → Option Job → Option String)
    (j : Option Job) (m : MatchRec) (s : AgentState) : AgentState × List Event :=
  match s.candidates.find? (fun c => some c.name == m.name) with
  | none => (s, [])
  | some c =>
    let ed := create_email_agent (draft c j) c
    let m2 : MatchRec := { m with sent_email := some ed }
    let s := { s with currentMatches := m2 :: s.currentMatches, matchLog := m2 :: s.matchLog }
    let store1 := add_message s.candidateStore c.candidate_id (.outbound ed)
    match j with
    | none =>
      ({ s with candidateStore := store1 }, [.addMessage c.candidate_id (.outbound ed)])
    | some job =>
      let store2 := update_candidate_status store1 c.candidate_id "requested" (some job.job_id)
      ({ s with candidateStore := store2, candidates := store2 },
        [.addMessage c.candidate_id (.outbound ed),
         .updateStatus c.candidate_id "requested" (some job.job_id),
         .sendEmail c.candidate_id ed])

/-- Sequential processing of the proposed matches of one tick. -/
def checkJobsAux (draft : Candidate → Option Job → Option String) (j : Option Job) :
    List MatchRec → AgentState → AgentState × List Event
  | [], s => (s, [])
  | m :: ms, s =>
    let p := processMatch draft j m s
    let q := checkJobsAux draft j ms p.1
    (q.1, p.2 ++ q.2)

/-- Model of a `check_jobs` tick (src/agent.py).  `py_.sample` is
`random.choice` over the collection and raises `IndexError` on an
empty sequence, which nothing inside the tick catches: on an empty
jobs mirror the model aborts (flag `true`) with the state unchanged,
before the current-match slots are reset and before any agent call.
Otherwise the sampled job is drawn from the mirror, the current-match
slots are reset, and the proposed matches are processed in order.
`propose` is the `find_candidates_agent` oracle (already `[]` on
agent failure), `draft` the `create_email_agent` completion oracle;
the second component traces the external side effects, the third
reports an uncaught exception. -/
def check_jobs (propose : Option Job → List MatchRec)
    (draft : Candidate → Option Job → Option String)
    (sampleIdx : Nat) (s : AgentState) : AgentState × List Event × Bool :=
  if s.jobs.isEmpty then (s, [], true)
  else
    let j : Option Job := s.jobs.get? (sampleIdx % s.jobs.length)
    let s := { s with currentMatches := [], currentJob := j }
    let r := checkJobsAux draft j (propose j) s
    (r.1, r.2, false)

/-- Substring containment on character lists (Python's `in` on
strings). -/
def listContains (pat : List Char) : List Char → Bool
  | [] => pat.isEmpty
  | c :: rest => pat.isPrefixOf (c :: rest) || listContains pat rest

/-- Availability decision of the reply loop:
`"interested" in classification.lower()` (ASCII lower-casing). -/
def containsInterested (classification : String) : Bool :=
  listContains "interested".data (classification.data.map Char.toLower)

/-- Body of the reply loop's try block for one email whose candidate
resolved (src/agent.py lines 208-225): log the reply, update the job
via the single mutator, refresh the jobs mirror, append the raw email
to the candidate history, refresh the candidates mirror. -/
def applyReply (classify : String → String) (e : Email) (t : String) (c : Candidate)
    (s : AgentState) : AgentState :=
  let classification := classify t
  let reply : Reply :=
    { candidate := c, email := e, classification := classification, jobId := c.job_id }
  let s := { s with replies := reply :: s.replies }
  let available := containsInterested classification
  let jobStore2 :=
    match c.job_id with
    | none => s.jobStore
    | some jid => (update_job_availability s.jobStore jid available (some e.candidate_id)).1
  let s := { s with jobStore := jobStore2, jobs := jobStore2 }
  let store2 := add_message s.candidateStore e.candidate_id (.inbound e)
  { s with candidateStore := store2, candidates := store2 }

/-- Reply-log membership check keyed by `email_id` (src/agent.py
lines 195-199). -/
def inLog (s : AgentState) (e : Email) : Bool :=
  s.replies.any (fun r => r.email.email_id == e.email_id)

/-- Model of a `check_candidates_replies` tick (src/agent.py).  The
returned flag records whether the tick aborted with an uncaught
exception: resolving the candidate happens before the try block, so a
miss raises `TypeError` at `candidate["job_id"]` and ends the tick,
leaving later emails unprocessed.  `classify` is the
`classify_email_agent` oracle, which never raises (it substitutes
`"not clear"` internally). -/
def check_candidates_replies (classify : String → String) :
    List Email → AgentState → AgentState × Bool
  | [], s => (s, false)
  | e :: es, s =>
    if inLog s e then check_candidates_replies classify es s
    else
      match e.response with
      | none => check_candidates_replies classify es s
      | some t =>
        if t == "" then check_candidates_replies classify es s
        else
          match s.candidates.find? (fun c => c.candidate_id == e.candidate_id) with
          | none => (s, true)
          | some c => check_candidates_replies classify es (applyReply classify e t c s)

/-- A role-tagged conversation message. -/
structure Msg where
  role : String
  content : String
deriving DecidableEq, Repr

/-- A tool call requested by the completion backend: arguments arrive
either already structured or as a string still to be decoded. -/
structure ToolCallReq where
  name : String
  args : Sum JVal String
deriving Repr

/-- A completion backend response (the `get_completion` contract). -/
structure Completion where
  text : Option String
  tool_calls : List ToolCallReq
deriving Repr

/-- Argument decoding in `process_query`: a string goes through
`json.loads` (whose failure propagates), a structured value is used
as is. -/
def decodeArgs : Sum JVal String → Option JVal
  | .inl v => some v
  | .inr s => jsonLoads s

/-- The call announcement fragment
`[Calling tool NAME with args ARGS]`. -/
def announce (name : String) (args : JVal) : String :=
  "[Calling tool " ++ name ++ " with args " ++ pyStr args ++ "]"

/-- Text fragments contributed by one completion: its text, when
truthy. -/
def textFragments (r : Completion) : List String :=
  match r.text with
  | some t => if t == "" then [] else [t]
  | none => []

/-- The per-tool-call loop of `process_query` (src/mcp_client.py lines
146-167): decode arguments, invoke the tool, record the announcement,
extend the conversation with the synthetic turns, request one
follow-up completion without tools, and keep its text.  The second
component traces every backend request as (messages, tools sent?). -/
def runCalls (getCompletion : List Msg → Bool → Completion)
    (callTool : String → JVal → String) :
    List ToolCallReq → List Msg → List String → List (List Msg × Bool) →
      Option (List String) × List (List Msg × Bool)
  | [], _, acc, tr => (some acc, tr)
  | tc :: rest, msgs, acc, tr =>
    match decodeArgs tc.args with
    | none => (none, tr)
    | some args =>
      let res := callTool tc.name args
      let acc2 := acc ++ [announce tc.name args]
      let msgs2 := msgs ++ [⟨"assistant", "Tool " ++ tc.name ++ " called."⟩, ⟨"user", res⟩]
      let next := getCompletion msgs2 false
      let tr2 := tr ++ [(msgs2, false)]
      runCalls getCompletion callTool rest msgs2 (acc2 ++ textFragments next) tr2

/-- Initial conversation of a `process_query` call: one user turn. -/
def queryMsgs (query : String) : List Msg :=
  [⟨"user", query⟩]

/-- Model of `MCPClient.process_query` (src/mcp_client.py): one
completion with the tool manifest; without tool calls its text is the
answer, otherwise each call is resolved sequentially with exactly one
tool-free follow-up, and the collected fragments are joined.  `none`
models a propagated exception (argument decoding), and the trace
records each backend request with whether tools were sent. -/
def process_query (getCompletion : List Msg → Bool → Completion)
    (callTool : String → JVal → String) (query : String) :
    Option String × List (List Msg × Bool) :=
  let msgs : List Msg := queryMsgs query
  let r := getCompletion msgs true
  let tr : List (List Msg × Bool) := [(msgs, true)]
  if r.tool_calls.isEmpty then
    (some (String.intercalate "\n" (textFragments r)), tr)
  else
    match runCalls getCompletion callTool r.tool_calls msgs [] tr with
    | (some acc, tr2) => (some (String.intercalate "\n" acc), tr2)
    | (none, tr2) => (none, tr2)

/-- Fragments the spec's step 5 prescribes for one round of tool
resolution: per call, in order, the call announcement and any
follow-up text, where the follow-up conversation carries the
synthetic assistant/user turns of all earlier calls.  This definition
follows the spec's words, to be compared with `runCalls`. -/
def specFragments (getCompletion : List Msg → Bool → Completion)
    (callTool : String → JVal → String) :
    List ToolCallReq → List Msg → Option (List String)
  | [], _ => some []
  | tc :: rest, msgs =>
    match decodeArgs tc.args with
    | none => none
    | some args =>
      let res := callTool tc.name args
      let msgs2 := msgs ++ [⟨"assistant", "Tool " ++ tc.name ++ " called."⟩, ⟨"user", res⟩]
      let next := getCompletion msgs2 false
      (specFragments getCompletion callTool rest msgs2).map
        (fun fs => announce tc.name args :: (textFragments next ++ fs))

/-- Backend requests the spec's step 5 prescribes: one tool-free
follow-up per decodable call entry. -/
def specFollowTrace (getCompletion : List Msg → Bool → Completion)
    (callTool : String → JVal → String) :
    List ToolCallReq → List Msg → List (List Msg × Bool)
  | [], _ => []
  | tc :: rest, msgs =>
    match decodeArgs tc.args with
    | none => []
    | some args =>
      let res := callTool tc.name args
      let msgs2 := msgs ++ [⟨"assistant", "Tool " ++ tc.name ++ " called."⟩, ⟨"user", res⟩]
      (msgs2, false) :: specFollowTrace getCompletion callTool rest msgs2

/-! Shared helper definitions and lemmas for the claim theorems. -/

/-- Lookup of a job by id, as `get_single("job_id", ...)` does. -/
def findJob (jobs : List Job) (jid : String) : Option Job :=
  jobs.find? (fun j => j.job_id == jid)

/-- Lookup of a candidate by id, as `get_single("candidate_id", ...)`
does. -/
def findCand (store : List Candidate) (cid : String) : Option Candidate :=
  store.find? (fun c => c.candidate_id == cid)

/-- The spec's per-job invariant: `status = filled` iff
`candidate_ids` is non-empty. -/
def jobInv (j : Job) : Prop :=
  j.status = "filled" ↔ j.candidate_ids ≠ []

instance : DecidablePred jobInv := fun j => by
  unfold jobInv; infer_instance

/-- The job invariant over a whole store. -/
def jobsInv (jobs : List Job) : Prop :=
  ∀ j ∈ jobs, jobInv j

instance : DecidablePred jobsInv := fun jobs => by
  unfold jobsInv; infer_instance

theorem applyJobUpdate_job_id (j : Job) (filled : Bool) (cid : Option String) :
    (applyJobUpdate j filled cid).job_id = j.job_id := by
  cases filled <;> simp [applyJobUpdate]

theorem findJob_update (jobs : List Job) (jid : String) (filled : Bool) (cid : Option String)
    (j0 : Job) (h : findJob jobs jid = some j0) :
    findJob (update_job_availability jobs jid filled cid).1 jid =
      some (applyJobUpdate j0 filled cid) := by
  induction jobs with
  | nil => simp [findJob] at h
  | cons j rest ih =>
    cases hj : (j.job_id == jid) with
    | true =>
      have hj0 : j = j0 := by
        simp only [findJob, List.find?, hj] at h
        exact Option.some.inj h
      subst hj0
      have hid : ((applyJobUpdate j filled cid).job_id == jid) = true := by
        rw [applyJobUpdate_job_id]; exact hj
      simp only [update_job_availability, hj, ite_true, findJob, List.find?, hid]
    | false =>
      have h' : findJob rest jid = some j0 := by
        simp only [findJob, List.find?, hj] at h
        exact h
      simp only [update_job_availability, hj, ite_false, Bool.false_eq_true,
        findJob, List.find?]
      exact ih h'

/-- Claim C3 counterexample input: a job with an empty id list. -/
theorem C3_counterexample :
    (update_job_availability [⟨"j1", "unfilled", []⟩] "j1" true none).1 =
      [⟨"j1", "filled", []⟩] ∧ ¬ jobInv ⟨"j1", "filled", []⟩ := by
  constructor
  · rfl
  · decide

/-- C3 (amended): provided every job satisfies the invariant
beforehand and every filled-update passes a non-empty candidate id
(as the reply loop does), `update_job_availability` leaves every job
in the store satisfying `status = filled` iff `candidate_ids` is
non-empty. -/
theorem C3_job_invariant_amended (jobs : List Job) (jid : String) (filled : Bool)
    (cand : Option String) (hpre : jobsInv jobs)
    (hc : filled = true → ∃ c, cand = some c ∧ c ≠ "") :
    jobsInv (update_job_availability jobs jid filled cand).1 := by
  induction jobs with
  | nil => simpa [update_job_availability] using hpre
  | cons j rest ih =>
    have hj' : jobInv j := hpre j (by simp)
    have hrest : jobsInv rest := fun x hx => hpre x (by simp [hx])
    by_cases hj : (j.job_id == jid) = true
    · intro x hx
      rw [update_job_availability] at hx
      simp only [hj, if_pos] at hx
      rcases List.mem_cons.mp hx with hx | hx
      · subst hx
        cases filled with
        | false => simp [applyJobUpdate, jobInv]
        | true =>
          obtain ⟨c, hcand, hc0⟩ := hc rfl
          subst hcand
          by_cases hmem : c ∈ j.candidate_ids
          · have hnil : j.candidate_ids ≠ [] := by
              intro h0; rw [h0] at hmem; simp at hmem
            simp [applyJobUpdate, jobInv, hmem, hnil]
          · simp [applyJobUpdate, jobInv, hmem, hc0]
      · exact hrest x hx
    · intro x hx
      rw [update_job_availability] at hx
      simp only [hj] at hx
      rcases List.mem_cons.mp (by simpa using hx) with hx | hx
      · subst hx; exact hj'
      · exact ih hrest x hx

/-- C3 witness: a concrete filled-update with a non-empty candidate
id preserves the invariant. -/
theorem C3_witness :
    jobsInv (update_job_availability [⟨"j1", "unfilled", []⟩] "j1" true (some "c9")).1 :=
  C3_job_invariant_amended [⟨"j1", "unfilled", []⟩] "j1" true (some "c9")
    (by decide) (fun _ => ⟨"c9", rfl, by decide⟩)

theorem applyReply_jobStore (cl : String → String) (e : Email) (t : String) (c : Candidate)
    (s : AgentState) (jid : String) (hjid : c.job_id = some jid) :
    (applyReply cl e t c s).jobStore =
      (update_job_availability s.jobStore jid (containsInterested (cl t))
        (some e.candidate_id)).1 := by
  simp [applyReply, hjid]

/-- C4: the availability decision of the reply loop is exactly the
case-insensitive "interested" substring test on the classification
token; an interested update leaves the job filled with the
candidate's id among its `candidate_ids`, any other token leaves it
unfilled with `candidate_ids` cleared; and the three spec tokens map
as predicted. -/
theorem C4_classification_mapping
    (cl : String → String) (e : Email) (t : String) (c : Candidate) (s : AgentState)
    (jid : String) (j0 : Job)
    (hjid : c.job_id = some jid)
    (hfind : findJob s.jobStore jid = some j0)
    (hcid : e.candidate_id ≠ "") :
    findJob (applyReply cl e t c s).jobStore jid =
      some (applyJobUpdate j0 (containsInterested (cl t)) (some e.candidate_id)) ∧
    ((applyJobUpdate j0 true (some e.candidate_id)).status = "filled" ∧
      e.candidate_id ∈ (applyJobUpdate j0 true (some e.candidate_id)).candidate_ids) ∧
    ((applyJobUpdate j0 false (some e.candidate_id)).status = "unfilled" ∧
      (applyJobUpdate j0 false (some e.candidate_id)).candidate_ids = []) ∧
    containsInterested "Interested!" = true ∧
    containsInterested "Not sure" = false ∧
    containsInterested "REJECTED" = false := by
  refine ⟨?_, ⟨?_, ?_⟩, ⟨?_, ?_⟩, ?_, ?_, ?_⟩
  · rw [applyReply_jobStore cl e t c s jid hjid]
    exact findJob_update _ _ _ _ _ hfind
  · simp [applyJobUpdate]
  · by_cases hmem : e.candidate_id ∈ j0.candidate_ids
    · simp [applyJobUpdate, hmem]
    · simp [applyJobUpdate, hmem, hcid]
  · simp [applyJobUpdate]
  · simp [applyJobUpdate]
  · decide
  · decide
  · decide

/-- C4 witness: a concrete reply on a one-job store. -/
theorem C4_witness :
    findJob (applyReply (fun _ => "Interested!") ⟨"e1", "c1", some "Interested!"⟩
        "Interested!" ⟨"c1", "Alice", some "a@x", "requested", some "j1", []⟩
        { jobStore := [⟨"j1", "unfilled", []⟩], candidateStore := [], jobs := [],
          candidates := [], currentJob := none, currentMatches := [], matchLog := [],
          replies := [] }).jobStore "j1" =
      some (applyJobUpdate ⟨"j1", "unfilled", []⟩
        (containsInterested "Interested!") (some "c1")) ∧
    containsInterested "Interested!" = true := by
  constructor
  · exact (C4_classification_mapping (fun _ => "Interested!") _ _ _ _ "j1"
      ⟨"j1", "unfilled", []⟩ rfl (by decide) (by decide)).1
  · decide

theorem applyReply_replies (cl : String → String) (e : Email) (t : String) (c : Candidate)
    (s : AgentState) :
    (applyReply cl e t c s).replies =
      { candidate := c, email := e, classification := cl t, jobId := c.job_id } :: s.replies := by
  cases hd : c.job_id <;> simp [applyReply, hd]

theorem replyTick_replies_extend (cl : String → String) (es : List Email) (s : AgentState) :
    ∃ pre, ((check_candidates_replies cl es s).1).replies = pre ++ s.replies := by
  induction es generalizing s with
  | nil => exact ⟨[], by simp [check_candidates_replies]⟩
  | cons e es ih =>
    cases h1 : inLog s e with
    | true => simpa [check_candidates_replies, h1] using ih s
    | false =>
      cases hr : e.response with
      | none => simpa [check_candidates_replies, h1, hr] using ih s
      | some t =>
        cases ht : (t == "") with
        | true => simpa [check_candidates_replies, h1, hr, ht] using ih s
        | false =>
          cases hf : s.candidates.find? (fun c => c.candidate_id == e.candidate_id) with
          | none => exact ⟨[], by simp [check_candidates_replies, h1, hr, ht, hf]⟩
          | some c =>
            obtain ⟨pre, hp⟩ := ih (applyReply cl e t c s)
            refine ⟨pre ++ [⟨c, e, cl t, c.job_id⟩], ?_⟩
            simp [check_candidates_replies, h1, hr, ht, hf, hp, applyReply_replies]

theorem inLog_of_extend {s s' : AgentState} (e : Email) (pre : List Reply)
    (hrep : s'.replies = pre ++ s.replies) (h : inLog s e = true) : inLog s' e = true := by
  rw [inLog] at h ⊢
  rw [hrep, List.any_append, h, Bool.or_true]

/-- Replaying the reply-classification tick over the same email list
is the identity: every email the first tick logged is skipped, every
email it skipped is skipped again, and an abort happens at the same
point with the same state.  The classifier oracle may even differ
between the two ticks. -/
theorem replyTick_idem (cl1 cl2 : String → String) (es : List Email) (s : AgentState) :
    check_candidates_replies cl2 es (check_candidates_replies cl1 es s).1 =
      check_candidates_replies cl1 es s := by
  induction es generalizing s with
  | nil => simp [check_candidates_replies]
  | cons e es ih =>
    cases h1 : inLog s e with
    | true =>
      have hstep : check_candidates_replies cl1 (e :: es) s
          = check_candidates_replies cl1 es s := by
        simp [check_candidates_replies, h1]
      rw [hstep]
      obtain ⟨pre, hp⟩ := replyTick_replies_extend cl1 es s
      have h1' : inLog (check_candidates_replies cl1 es s).1 e = true :=
        inLog_of_extend e pre hp h1
      rw [show check_candidates_replies cl2 (e :: es) (check_candidates_replies cl1 es s).1
          = check_candidates_replies cl2 es (check_candidates_replies cl1 es s).1 by
        simp [check_candidates_replies, h1']]
      exact ih s
    | false =>
      cases hr : e.response with
      | none =>
        have hstep : check_candidates_replies cl1 (e :: es) s
            = check_candidates_replies cl1 es s := by
          simp [check_candidates_replies, h1, hr]
        rw [hstep]
        cases h2 : inLog (check_candidates_replies cl1 es s).1 e with
        | true =>
          rw [show check_candidates_replies cl2 (e :: es) (check_candidates_replies cl1 es s).1
              = check_candidates_replies cl2 es (check_candidates_replies cl1 es s).1 by
            simp [check_candidates_replies, h2]]
          exact ih s
        | false =>
          rw [show check_candidates_replies cl2 (e :: es) (check_candidates_replies cl1 es s).1
              = check_candidates_replies cl2 es (check_candidates_replies cl1 es s).1 by
            simp [check_candidates_replies, h2, hr]]
          exact ih s
      | some t =>
        cases ht : (t == "") with
        | true =>
          have hstep : check_candidates_replies cl1 (e :: es) s
              = check_candidates_replies cl1 es s := by
            simp [check_candidates_replies, h1, hr, ht]
          rw [hstep]
          cases h2 : inLog (check_candidates_replies cl1 es s).1 e with
          | true =>
            rw [show check_candidates_replies cl2 (e :: es) (check_candidates_replies cl1 es s).1
                = check_candidates_replies cl2 es (check_candidates_replies cl1 es s).1 by
              simp [check_candidates_replies, h2]]
            exact ih s
          | false =>
            rw [show check_candidates_replies cl2 (e :: es) (check_candidates_replies cl1 es s).1
                = check_candidates_replies cl2 es (check_candidates_replies cl1 es s).1 by
              simp [check_candidates_replies, h2, hr, ht]]
            exact ih s
        | false =>
          cases hf : s.candidates.find? (fun c => c.candidate_id == e.candidate_id) with
          | none =>
            have hstep : check_candidates_replies cl1 (e :: es) s = (s, true) := by
              simp [check_candidates_replies, h1, hr, ht, hf]
            rw [hstep]
            simp [check_candidates_replies, h1, hr, ht, hf]
          | some c =>
            have hstep : check_candidates_replies cl1 (e :: es) s
                = check_candidates_replies cl1 es (applyReply cl1 e t c s) := by
              simp [check_candidates_replies, h1, hr, ht, hf]
            rw [hstep]
            obtain ⟨pre, hp⟩ := replyTick_replies_extend cl1 es (applyReply cl1 e t c s)
            have hin : inLog (applyReply cl1 e t c s) e = true := by
              simp [inLog, applyReply_replies]
            have h2 : inLog (check_candidates_replies cl1 es (applyReply cl1 e t c s)).1 e
                = true := inLog_of_extend e pre hp hin
            rw [show check_candidates_replies cl2 (e :: es)
                  (check_candidates_replies cl1 es (applyReply cl1 e t c s)).1
                = check_candidates_replies cl2 es
                  (check_candidates_replies cl1 es (applyReply cl1 e t c s)).1 by
              simp [check_candidates_replies, h2]]
            exact ih (applyReply cl1 e t c s)

/-- C1: an email whose `email_id` is already in the reply log is
skipped without being classified or appended again, and a second
tick over the same inbound-email list changes nothing, so the reply
log length after the second tick equals its length after the first. -/
theorem C1_idempotent_reply_log (cl1 cl2 : String → String) (e : Email) (es : List Email)
    (s : AgentState) (h : inLog s e = true) :
    check_candidates_replies cl1 (e :: es) s = check_candidates_replies cl1 es s ∧
    check_candidates_replies cl2 es (check_candidates_replies cl1 es s).1 =
      check_candidates_replies cl1 es s ∧
    ((check_candidates_replies cl2 es (check_candidates_replies cl1 es s).1).1).replies.length =
      ((check_candidates_replies cl1 es s).1).replies.length := by
  refine ⟨by simp [check_candidates_replies, h], replyTick_idem cl1 cl2 es s, ?_⟩
  rw [replyTick_idem cl1 cl2 es s]

/-- Fixtures for the C1 witness. -/
def e1W : Email := ⟨"e1", "c1", some "hi"⟩

/-- State for the C1 witness: `e1W` already sits in the reply log. -/
def s1W : AgentState :=
  { jobStore := [], candidateStore := [], jobs := [], candidates := [],
    currentJob := none, currentMatches := [], matchLog := [],
    replies := [⟨⟨"c1", "Alice", none, "requested", none, []⟩, e1W, "interested", none⟩] }

/-- C1 witness: concrete logged email, concrete tick. -/
theorem C1_witness :
    inLog s1W e1W = true ∧
    check_candidates_replies (fun _ => "interested") [e1W] s1W =
      check_candidates_replies (fun _ => "interested") ([] : List Email) s1W :=
  ⟨by decide,
    (C1_idempotent_reply_log (fun _ => "interested") (fun _ => "interested") e1W []
      s1W (by decide)).1⟩

/-- Fixture candidate for the C2 theorem. -/
def c2W : Candidate := ⟨"c1", "Alice", some "a@x", "requested", some "j1", []⟩

/-- Fixture state for the C2 theorem. -/
def s2W : AgentState :=
  { jobStore := [⟨"j1", "unfilled", []⟩], candidateStore := [c2W],
    jobs := [⟨"j1", "unfilled", []⟩], candidates := [c2W],
    currentJob := none, currentMatches := [], matchLog := [], replies := [] }

/-- C2: an inbound email whose `candidate_id` resolves to no
candidate makes the tick abort with an uncaught exception (the
`candidate["job_id"]` access on `None`), so the remaining emails are
not processed — although the very next email alone would have been
classified and logged. -/
theorem C2_unresolved_candidate_aborts_tick :
    check_candidates_replies (fun _ => "interested")
      [⟨"e9", "zz", some "Interested"⟩, ⟨"e2", "c1", some "Interested"⟩] s2W = (s2W, true) ∧
    (((check_candidates_replies (fun _ => "interested")
      [⟨"e2", "c1", some "Interested"⟩] s2W).1).replies).length = 1 := by
  constructor
  · rfl
  · rfl

/-- Recognizer for outbound-dispatch events. -/
def isSendEvent : Event → Bool
  | .sendEmail _ _ => true
  | _ => false

/-- Recognizer for persisted-message-append events. -/
def isPersistEvent : Event → Bool
  | .addMessage _ _ => true
  | _ => false

/-- Fixture candidate for the C5 counterexample. -/
def cand5 : Candidate := ⟨"c1", "Alice", some "al@x", "available", none, []⟩

/-- Fixture state for the C5 counterexample. -/
def s5W : AgentState :=
  { jobStore := [⟨"J1", "unfilled", []⟩], candidateStore := [cand5],
    jobs := [⟨"J1", "unfilled", []⟩], candidates := [cand5],
    currentJob := none, currentMatches := [], matchLog := [], replies := [] }

/-- C5 counterexample: in a concrete matching tick the persisted
message append and status update happen strictly before the outbound
dispatch, not after it as the claim's step order says. -/
theorem C5_counterexample :
    (check_jobs (fun _ => [⟨some "Alice", none⟩]) (fun _ _ => none) 0 s5W).2.1 =
      [.addMessage "c1" (.outbound .empty),
       .updateStatus "c1" "requested" (some "J1"),
       .sendEmail "c1" .empty] ∧
    ¬ ((check_jobs (fun _ => [⟨some "Alice", none⟩]) (fun _ _ => none) 0 s5W).2.1.findIdx
          isSendEvent <
        (check_jobs (fun _ => [⟨some "Alice", none⟩]) (fun _ _ => none) 0 s5W).2.1.findIdx
          isPersistEvent) := by
  constructor
  · rfl
  · decide

/-- C5 (amended): for every resolved match the side effects occur in
the order append-to-history, status update, then dispatch — the
message is persisted before the outbound transport is invoked. -/
theorem C5_persist_before_dispatch_amended
    (draft : Candidate → Option Job → Option String) (j : Job) (m : MatchRec)
    (s : AgentState) (c : Candidate)
    (hc : s.candidates.find? (fun cc => some cc.name == m.name) = some c) :
    (processMatch draft (some j) m s).2 =
      [.addMessage c.candidate_id (.outbound (create_email_agent (draft c (some j)) c)),
       .updateStatus c.candidate_id "requested" (some j.job_id),
       .sendEmail c.candidate_id (create_email_agent (draft c (some j)) c)] := by
  simp [processMatch, hc]

/-- C5 witness: the amended order on a concrete match. -/
theorem C5_witness :
    (processMatch (fun _ _ => none) (some ⟨"J1", "unfilled", []⟩) ⟨some "Alice", none⟩
        s5W).2 =
      [.addMessage "c1" (.outbound (create_email_agent none cand5)),
       .updateStatus "c1" "requested" (some "J1"),
       .sendEmail "c1" (create_email_agent none cand5)] :=
  C5_persist_before_dispatch_amended (fun _ _ => none) ⟨"J1", "unfilled", []⟩
    ⟨some "Alice", none⟩ s5W cand5 (by decide)

/-- Fixture candidate for the C6 counterexample. -/
def cand6 : Candidate := ⟨"c1", "Alice", some "al@x", "available", none, []⟩

/-- Fixture state with an empty job set for the C6 counterexample. -/
def s6W : AgentState :=
  { jobStore := [], candidateStore := [cand6], jobs := [], candidates := [cand6],
    currentJob := none, currentMatches := [], matchLog := [], replies := [] }

/-- C6: with an empty job set the matching tick does not complete:
`py_.sample` is `random.choice` over the collection and raises
`IndexError` on an empty sequence, before the current-match slots are
reset and before any agent call, so the tick aborts (the exception is
caught only by the scheduler loop of agent_server.py) with the state
unchanged and no side effects — even under a propose oracle that
would return a resolvable match, which shows the agent is never
invoked.  The no-change half of the claim holds; the
completes-without-failing half does not. -/
theorem C6_empty_jobs_raises (propose : Option Job → List MatchRec)
    (draft : Candidate → Option Job → Option String) (idx : Nat) (s : AgentState)
    (hempty : s.jobs = []) :
    check_jobs propose draft idx s = (s, [], true) ∧
    check_jobs (fun _ => [⟨some "Alice", none⟩]) (fun _ _ => none) 0 s6W =
      (s6W, [], true) := by
  constructor
  · simp [check_jobs, hempty]
  · rfl

/-- C6 witness: a concrete empty-jobs tick aborts with the state
unchanged. -/
theorem C6_witness :
    s6W.jobs = [] ∧
    check_jobs (fun _ => []) (fun _ _ => none) 0 s6W = (s6W, [], true) :=
  ⟨rfl, (C6_empty_jobs_raises (fun _ => []) (fun _ _ => none) 0 s6W rfl).1⟩

theorem findCand_add_message (store : List Candidate) (cid : String) (msg : StoredMsg)
    (c0 : Candidate) (h : findCand store cid = some c0) :
    findCand (add_message store cid msg) cid =
      some { c0 with messages := c0.messages ++ [msg] } := by
  induction store with
  | nil => simp [findCand] at h
  | cons c rest ih =>
    cases hc : (c.candidate_id == cid) with
    | true =>
      have hc0 : c = c0 := by
        simp only [findCand, List.find?, hc] at h
        exact Option.some.inj h
      subst hc0
      simp [add_message, hc, findCand, List.find?]
    | false =>
      have h' : findCand rest cid = some c0 := by
        simp only [findCand, List.find?, hc] at h
        exact h
      simp only [add_message, hc, ite_false, Bool.false_eq_true, findCand, List.find?]
      exact ih h'

theorem findCand_update_status (store : List Candidate) (cid : String) (st : String)
    (jid : Option String) (c0 : Candidate) (h : findCand store cid = some c0) :
    findCand (update_candidate_status store cid st jid) cid =
      some { c0 with status := st, job_id := jid } := by
  induction store with
  | nil => simp [findCand] at h
  | cons c rest ih =>
    cases hc : (c.candidate_id == cid) with
    | true =>
      have hc0 : c = c0 := by
        simp only [findCand, List.find?, hc] at h
        exact Option.some.inj h
      subst hc0
      simp [update_candidate_status, hc, findCand, List.find?]
    | false =>
      have h' : findCand rest cid = some c0 := by
        simp only [findCand, List.find?, hc] at h
        exact h
      simp only [update_candidate_status, hc, ite_false, Bool.false_eq_true, findCand,
        List.find?]
      exact ih h'

/-- C9: when the draft-message agent fails, the match is still
recorded with the empty payload, the candidate still ends up with
status "requested", the job back-reference and the empty message
appended, and the tick goes on to process the remaining matches. -/
theorem C9_failed_draft_still_requests
    (draft : Candidate → Option Job → Option String) (j : Job) (m : MatchRec)
    (ms : List MatchRec) (s : AgentState) (c c0 : Candidate)
    (hname : s.candidates.find? (fun cc => some cc.name == m.name) = some c)
    (hdraft : draft c (some j) = none)
    (hstore : findCand s.candidateStore c.candidate_id = some c0) :
    (processMatch draft (some j) m s).1.matchLog =
      { m with sent_email := some Payload.empty } :: s.matchLog ∧
    findCand ((processMatch draft (some j) m s).1).candidateStore c.candidate_id =
      some { c0 with
        status := "requested"
        job_id := some j.job_id
        messages := c0.messages ++ [.outbound .empty] } ∧
    checkJobsAux draft (some j) (m :: ms) s =
      ((checkJobsAux draft (some j) ms (processMatch draft (some j) m s).1).1,
        (processMatch draft (some j) m s).2 ++
          (checkJobsAux draft (some j) ms (processMatch draft (some j) m s).1).2) := by
  refine ⟨?_, ?_, rfl⟩
  · simp [processMatch, hname, hdraft, create_email_agent]
  · have hcs : ((processMatch draft (some j) m s).1).candidateStore =
        update_candidate_status
          (add_message s.candidateStore c.candidate_id (.outbound .empty))
          c.candidate_id "requested" (some j.job_id) := by
      simp [processMatch, hname, hdraft, create_email_agent]
    rw [hcs]
    have h1 := findCand_add_message s.candidateStore c.candidate_id (.outbound .empty)
      c0 hstore
    have h2 := findCand_update_status
      (add_message s.candidateStore c.candidate_id (.outbound .empty))
      c.candidate_id "requested" (some j.job_id) _ h1
    simpa using h2

/-- Fixture state for the C9 witness. -/
def s9W : AgentState :=
  { jobStore := [⟨"J1", "unfilled", []⟩], candidateStore := [cand5],
    jobs := [⟨"J1", "unfilled", []⟩], candidates := [cand5],
    currentJob := none, currentMatches := [], matchLog := [], replies := [] }

/-- C9 witness: a failing draft oracle on a concrete match still
marks the candidate requested with the empty message appended. -/
theorem C9_witness :
    findCand ((processMatch (fun _ _ => none) (some ⟨"J1", "unfilled", []⟩)
        ⟨some "Alice", none⟩ s9W).1).candidateStore "c1" =
      some { cand5 with
        status := "requested"
        job_id := some "J1"
        messages := [.outbound .empty] } :=
  (C9_failed_draft_still_requests (fun _ _ => none) ⟨"J1", "unfilled", []⟩
    ⟨some "Alice", none⟩ [] s9W cand5 cand5 (by decide) rfl (by decide)).2.1

theorem dropLenAppend (l₁ l₂ : List Char) : (l₁ ++ l₂).drop l₁.length = l₂ := by
  induction l₁ with
  | nil => simp
  | cons a l ih => simpa using ih

theorem searchClose_sound (cs v : List Char) (h : searchClose cs = some v) :
    ∃ u, cs = u ++ mClose ++ v ∧ '\n' ∉ u := by
  induction cs with
  | nil => simp [searchClose] at h
  | cons c rest ih =>
    rw [searchClose] at h
    cases hin : (if (c == '\n') then none else searchClose rest) with
    | some w =>
      rw [hin] at h
      have hv : w = v := Option.some.inj h
      subst hv
      have hnl : (c == '\n') = false := by
        cases hb : (c == '\n') with
        | false => rfl
        | true => rw [hb] at hin; simp at hin
      rw [hnl] at hin
      simp only [ite_false, Bool.false_eq_true] at hin
      obtain ⟨u, hu, hnu⟩ := ih hin
      refine ⟨c :: u, ?_, ?_⟩
      · simp [hu]
      · intro hmem
        rcases List.mem_cons.mp hmem with h1 | h1
        · exact absurd h1.symm (by simpa using hnl)
        · exact hnu h1
    | none =>
      rw [hin] at h
      cases hp : mClose.isPrefixOf (c :: rest) with
      | false => rw [hp] at h; simp at h
      | true =>
        rw [hp] at h
        simp only [ite_true] at h
        obtain ⟨t, ht⟩ := List.isPrefixOf_iff_prefix.mp hp
        have hd : (c :: rest).drop mClose.length = v := Option.some.inj h
        have hv : t = v := by
          rw [← hd, ← ht, dropLenAppend]
        refine ⟨[], ?_, by simp⟩
        rw [← hv, ← ht]
        simp

theorem searchClose_complete (u v : List Char) (hu : '\n' ∉ u) :
    (searchClose (u ++ mClose ++ v)).isSome = true := by
  induction u with
  | nil =>
    rw [List.nil_append,
      show mClose ++ v = ' ' :: ("with args \x7b\x7d]".data ++ v) from rfl, searchClose]
    cases hin : searchClose ("with args \x7b\x7d]".data ++ v) with
    | some w => simp [hin]
    | none =>
      simp [hin]
      exact ⟨v, rfl⟩
  | cons a u' ih =>
    simp only [List.mem_cons, not_or] at hu
    obtain ⟨ha, hu'⟩ := hu
    have hna : (a == '\n') = false := by
      cases hb : (a == '\n') with
      | false => rfl
      | true =>
        have hb' : a = '\n' := by simpa using hb
        exact absurd hb'.symm ha
    rw [List.cons_append, List.cons_append, searchClose]
    have ih' := ih hu'
    cases hin : searchClose (u' ++ mClose ++ v) with
    | some w => simp [hna, hin]
    | none => rw [hin] at ih'; simp at ih'

theorem afterMarkerAt_sound (cs v : List Char) (h : afterMarkerAt cs = some v) :
    ∃ mid, cs = mid ++ mClose ++ v ∧ mid ≠ [] ∧ '\n' ∉ mid := by
  cases cs with
  | nil => simp [afterMarkerAt] at h
  | cons c rest =>
    rw [afterMarkerAt] at h
    cases hnl : (c == '\n') with
    | true => rw [hnl] at h; simp at h
    | false =>
      rw [hnl] at h
      simp only [ite_false, Bool.false_eq_true] at h
      obtain ⟨u, hu, hnu⟩ := searchClose_sound rest v h
      refine ⟨c :: u, ?_, ?_, ?_⟩
      · simp [hu]
      · simp
      · intro hmem
        rcases List.mem_cons.mp hmem with h1 | h1
        · exact absurd h1.symm (by simpa using hnl)
        · exact hnu h1

theorem afterMarkerAt_complete (mid t2 : List Char) (hne : mid ≠ []) (hnl : '\n' ∉ mid) :
    (afterMarkerAt (mid ++ mClose ++ t2)).isSome = true := by
  cases mid with
  | nil => exact absurd rfl hne
  | cons a mid' =>
    simp only [List.mem_cons, not_or] at hnl
    obtain ⟨ha, hmid'⟩ := hnl
    have hna : (a == '\n') = false := by
      cases hb : (a == '\n') with
      | false => rfl
      | true =>
        have hb' : a = '\n' := by simpa using hb
        exact absurd hb'.symm ha
    rw [List.cons_append, List.cons_append, afterMarkerAt, hna]
    simp only [ite_false, Bool.false_eq_true]
    exact searchClose_complete mid' t2 hmid'

theorem findMarker_sound (cs v : List Char) (h : findMarker cs = some v) :
    ∃ pre mid, cs = pre ++ mOpen ++ mid ++ mClose ++ v ∧ mid ≠ [] ∧ '\n' ∉ mid := by
  induction cs with
  | nil => simp [findMarker] at h
  | cons c rest ih =>
    rw [findMarker] at h
    cases hp : mOpen.isPrefixOf (c :: rest) with
    | false =>
      rw [hp] at h
      simp only [ite_false, Bool.false_eq_true] at h
      obtain ⟨pre, mid, hc, hne, hnl⟩ := ih h
      exact ⟨c :: pre, mid, by simp [hc], hne, hnl⟩
    | true =>
      rw [hp] at h
      simp only [ite_true] at h
      cases ham : afterMarkerAt ((c :: rest).drop mOpen.length) with
      | none =>
        rw [ham] at h
        obtain ⟨pre, mid, hc, hne, hnl⟩ := ih h
        exact ⟨c :: pre, mid, by simp [hc], hne, hnl⟩
      | some w =>
        rw [ham] at h
        have hv : w = v := Option.some.inj h
        obtain ⟨t, ht⟩ := List.isPrefixOf_iff_prefix.mp hp
        have hdrop : (c :: rest).drop mOpen.length = t := by
          rw [← ht, dropLenAppend]
        rw [hdrop, hv] at ham
        obtain ⟨mid, hmid, hne, hnl⟩ := afterMarkerAt_sound t v ham
        refine ⟨[], mid, ?_, hne, hnl⟩
        rw [List.nil_append, ← ht, hmid]
        simp

theorem findMarker_complete (pre mid t2 : List Char) (hne : mid ≠ []) (hnl : '\n' ∉ mid) :
    (findMarker (pre ++ mOpen ++ mid ++ mClose ++ t2)).isSome = true := by
  induction pre with
  | nil =>
    rw [List.nil_append]
    have hp : mOpen.isPrefixOf (mOpen ++ (mid ++ mClose ++ t2)) = true :=
      List.isPrefixOf_iff_prefix.mpr ⟨mid ++ mClose ++ t2, rfl⟩
    rw [show mOpen ++ mid ++ mClose ++ t2
        = '[' :: ("Calling tool ".data ++ (mid ++ mClose ++ t2)) from by simp [mOpen],
      findMarker]
    have hp' : mOpen.isPrefixOf ('[' :: ("Calling tool ".data ++ (mid ++ mClose ++ t2)))
        = true := by
      simpa [mOpen] using hp
    rw [hp']
    simp only [ite_true]
    have hdrop : ('[' :: ("Calling tool ".data ++ (mid ++ mClose ++ t2))).drop mOpen.length
        = mid ++ mClose ++ t2 := by
      rw [show '[' :: ("Calling tool ".data ++ (mid ++ mClose ++ t2))
          = mOpen ++ (mid ++ mClose ++ t2) from by simp [mOpen], dropLenAppend]
    rw [hdrop]
    have ham := afterMarkerAt_complete mid t2 hne hnl
    cases hm : afterMarkerAt (mid ++ mClose ++ t2) with
    | some w => simp
    | none => rw [hm] at ham; simp at ham
  | cons p pre' ih =>
    rw [show (p :: pre') ++ mOpen ++ mid ++ mClose ++ t2
        = p :: (pre' ++ mOpen ++ mid ++ mClose ++ t2) from by simp, findMarker]
    cases hp : mOpen.isPrefixOf (p :: (pre' ++ mOpen ++ mid ++ mClose ++ t2)) with
    | false => simpa using ih
    | true =>
      simp only [ite_true]
      cases ham : afterMarkerAt ((p :: (pre' ++ mOpen ++ mid ++ mClose ++ t2)).drop
          mOpen.length) with
      | some w => simp
      | none => simpa using ih

/-- C7 counterexample: this input is exactly a real call announcement
(with non-empty args, as `process_query` emits them) followed by
trailing JSON, yet the parser raises instead of discarding the
marker — although the trailing content alone parses fine. -/
theorem C7_counterexample :
    ("[Calling tool f with args \x7b\x27a\x27: 1\x7d]" ++ "\n" ++ "\x7b\"x\": 1\x7d") =
      announce "f" (.jobj [("a", .jnum "1")]) ++ "\n" ++ "\x7b\"x\": 1\x7d" ∧
    parse_json_from_response
      ("[Calling tool f with args \x7b\x27a\x27: 1\x7d]" ++ "\n" ++ "\x7b\"x\": 1\x7d") =
      none ∧
    parse_json_from_response "\x7b\"x\": 1\x7d" = some (.jobj [("x", .jnum "1")]) := by
  exact ⟨rfl, rfl, rfl⟩

/-- C7 (amended): the parser discards everything up to and including
a tool-call announcement marker only when the marker's rendered args
are exactly `\x7b\x7d`; whenever the marker regex matches, the matched text
decomposes as prefix, opening literal, a non-empty newline-free args
gap, the empty-args closing literal, and the kept tail, the rest of
the pipeline running on the stripped tail alone; and every input
containing such an empty-args marker is matched. -/
theorem C7_marker_amended (s : String) (tail : List Char)
    (h : findMarker s.data = some tail) :
    (∃ pre mid, s.data = pre ++ mOpen ++ mid ++ mClose ++ tail ∧ mid ≠ [] ∧ '\n' ∉ mid) ∧
    parse_json_from_response s = parseCleaned (pyStrip (String.mk tail)) ∧
    (∀ (u pre mid t2 : List Char), u = pre ++ mOpen ++ mid ++ mClose ++ t2 →
      mid ≠ [] → '\n' ∉ mid → (findMarker u).isSome = true) := by
  refine ⟨findMarker_sound s.data tail h, ?_, ?_⟩
  · simp [parse_json_from_response, stripToolCall, h]
  · intro u pre mid t2 hu hne hnl
    rw [hu]
    exact findMarker_complete pre mid t2 hne hnl

/-- C7 witness: a concrete empty-args marker input is stripped and
the pipeline runs on the tail. -/
theorem C7_witness :
    parse_json_from_response "[Calling tool f with args \x7b\x7d]\n\x7b\"x\": 1\x7d" =
      parseCleaned (pyStrip (String.mk "\n\x7b\"x\": 1\x7d".data)) :=
  (C7_marker_amended "[Calling tool f with args \x7b\x7d]\n\x7b\"x\": 1\x7d"
    "\n\x7b\"x\": 1\x7d".data (by rfl)).2.1

theorem runCalls_spec (gc : List Msg → Bool → Completion) (ct : String → JVal → String)
    (tcs : List ToolCallReq) (msgs : List Msg) (acc : List String)
    (tr : List (List Msg × Bool)) :
    runCalls gc ct tcs msgs acc tr =
      ((specFragments gc ct tcs msgs).map (fun fs => acc ++ fs),
        tr ++ specFollowTrace gc ct tcs msgs) := by
  induction tcs generalizing msgs acc tr with
  | nil => simp [runCalls, specFragments, specFollowTrace]
  | cons tc rest ih =>
    cases hd : decodeArgs tc.args with
    | none => simp [runCalls, specFragments, specFollowTrace, hd]
    | some args =>
      rw [runCalls, specFragments, specFollowTrace]
      simp only [hd]
      rw [ih]
      cases hsf : specFragments gc ct rest
          (msgs ++ [⟨"assistant", "Tool " ++ tc.name ++ " called."⟩,
            ⟨"user", ct tc.name args⟩]) with
      | none => simp
      | some fs => simp

theorem specFollowTrace_tools_omitted (gc : List Msg → Bool → Completion)
    (ct : String → JVal → String) (tcs : List ToolCallReq) (msgs : List Msg) :
    ∀ x ∈ specFollowTrace gc ct tcs msgs, x.2 = false := by
  induction tcs generalizing msgs with
  | nil => simp [specFollowTrace]
  | cons tc rest ih =>
    cases hd : decodeArgs tc.args with
    | none => simp [specFollowTrace, hd]
    | some args =>
      intro x hx
      rw [specFollowTrace] at hx
      simp only [hd] at hx
      rcases List.mem_cons.mp hx with h1 | h1
      · rw [h1]
      · exact ih _ x h1

theorem specFollowTrace_length (gc : List Msg → Bool → Completion)
    (ct : String → JVal → String) (tcs : List ToolCallReq) (msgs : List Msg)
    (h : ∀ tc ∈ tcs, (decodeArgs tc.args).isSome = true) :
    (specFollowTrace gc ct tcs msgs).length = tcs.length := by
  induction tcs generalizing msgs with
  | nil => simp [specFollowTrace]
  | cons tc rest ih =>
    cases hd : decodeArgs tc.args with
    | none =>
      have := h tc (by simp)
      rw [hd] at this
      simp at this
    | some args =>
      rw [specFollowTrace]
      simp only [hd, List.length_cons]
      rw [ih _ (fun x hx => h x (by simp [hx]))]

/-- C8: `process_query` sends the first completion with the tool
manifest attached; with no tool calls it returns the backend's text
directly; otherwise it resolves the requested calls sequentially,
requesting exactly one tool-free follow-up completion per decodable
call entry (never chasing follow-up responses for further calls),
and returns the newline-joined collected fragments — announcements
and follow-up texts — in call order. -/
theorem C8_process_query_single_round (gc : List Msg → Bool → Completion)
    (ct : String → JVal → String) (q : String) :
    ((gc (queryMsgs q) true).tool_calls = [] →
      process_query gc ct q =
        (some (String.intercalate "\n" (textFragments (gc (queryMsgs q) true))),
          [(queryMsgs q, true)])) ∧
    (process_query gc ct q).2.head? = some (queryMsgs q, true) ∧
    (process_query gc ct q).2.tail =
      specFollowTrace gc ct (gc (queryMsgs q) true).tool_calls (queryMsgs q) ∧
    (∀ x ∈ (process_query gc ct q).2.tail, x.2 = false) ∧
    ((gc (queryMsgs q) true).tool_calls ≠ [] →
      (process_query gc ct q).1 =
        (specFragments gc ct (gc (queryMsgs q) true).tool_calls (queryMsgs q)).map
          (String.intercalate "\n")) ∧
    ((∀ tc ∈ (gc (queryMsgs q) true).tool_calls, (decodeArgs tc.args).isSome = true) →
      (process_query gc ct q).2.length = (gc (queryMsgs q) true).tool_calls.length + 1) := by
  cases hemp : (gc (queryMsgs q) true).tool_calls with
  | nil =>
    have hpq0 : process_query gc ct q =
        (some (String.intercalate "\n" (textFragments (gc (queryMsgs q) true))),
          [(queryMsgs q, true)]) := by
      rw [process_query]
      simp only [hemp, List.isEmpty_nil, if_true]
    refine ⟨fun _ => hpq0, ?_, ?_, ?_, ?_, fun _ => ?_⟩
    · simp [hpq0]
    · simp [hpq0, specFollowTrace]
    · simp [hpq0]
    · intro hne
      exact absurd rfl hne
    · simp [hpq0]
  | cons tc rest =>
    have hrun := runCalls_spec gc ct (tc :: rest) (queryMsgs q) []
      [(queryMsgs q, true)]
    have hpq : process_query gc ct q =
        (((specFragments gc ct (tc :: rest) (queryMsgs q)).map
            (String.intercalate "\n")),
          (queryMsgs q, true) :: specFollowTrace gc ct (tc :: rest) (queryMsgs q)) := by
      rw [process_query]
      simp only [hemp, List.isEmpty_cons, Bool.false_eq_true, if_false, hrun]
      cases hsf : specFragments gc ct (tc :: rest) (queryMsgs q) with
      | none => simp
      | some fs => simp
    refine ⟨?_, ?_, ?_, ?_, ?_, ?_⟩
    · intro h0
      exact absurd h0 (by simp)
    · simp [hpq]
    · simp [hpq]
    · rw [hpq]
      intro x hx
      exact specFollowTrace_tools_omitted gc ct (tc :: rest) (queryMsgs q) x
        (by simpa using hx)
    · intro _
      simp [hpq]
    · intro hdec
      rw [hpq]
      simp only [List.length_cons]
      rw [specFollowTrace_length gc ct (tc :: rest) (queryMsgs q) hdec]
      simp

/-- Backend oracle fixture for the C8 witness: one tool call with
empty structured args on the tooled request, plain text on
follow-ups. -/
def gcW : List Msg → Bool → Completion :=
  fun _ tools =>
    if tools then ⟨some "txt", [⟨"t1", .inl (.jobj [])⟩]⟩ else ⟨some "follow", []⟩

/-- Tool-registry oracle fixture for the C8 witness. -/
def ctW : String → JVal → String := fun _ _ => "res"

/-- C8 witness: the concrete one-call run makes exactly two backend
requests. -/
theorem C8_witness :
    (process_query gcW ctW "hi").2.length =
      (gcW (queryMsgs "hi") true).tool_calls.length + 1 :=
  (C8_process_query_single_round gcW ctW "hi").2.2.2.2.2 (by decide)

/-- C10: when the content after marker removal, fence extraction and
bullet stripping is not valid JSON, the parser propagates the
failure; it never falls back to returning the raw trimmed text.
Plain prose therefore yields a failure, not a degenerate string
result, while genuine JSON still parses. -/
theorem C10_parse_failure_propagates (s : String)
    (h : jsonLoads (String.mk (stripBullets (extractFence (stripToolCall s)).data true))
      = none) :
    parse_json_from_response s = none ∧
    parse_json_from_response "hello world" = none ∧
    parse_json_from_response "hello world" ≠ some (.jstr "hello world") ∧
    parse_json_from_response "[1, 2]" = some (.jarr [.jnum "1", .jnum "2"]) := by
  refine ⟨h, rfl, ?_, rfl⟩
  rw [show parse_json_from_response "hello world" = none from rfl]
  simp

/-- C10 witness: plain prose makes the parser fail. -/
theorem C10_witness :
    parse_json_from_response "hello world" = none :=
  (C10_parse_failure_propagates "hello world" (by rfl)).1

end AgentKit
